import Mathlib

/-!
Verification development for the filtering and traversal engine of
`code2md` (`src/code2md/main.py`).

The embedding models:
* `fnmatch` — Python's `fnmatch.fnmatch` shell-glob matcher on a POSIX
  platform (where `os.path.normcase` is the identity), over lists of
  characters: `*`, `?` and `[...]` classes with `!`-negation, a literal
  leading `]`, character ranges, and an unmatched `[` treated literally.
* `Config` — the mutable attributes of the `Code2MD` object that the
  filter predicates read (the Python sets are modelled as lists queried
  by membership).
* a path model: a path under the traversal root is its list of
  components relative to the root (`[]` for the root itself), together
  with the root's bare name; `relStr` mirrors
  `str(path.relative_to(root_dir))` (which is `"."` for the root) and
  `pathName` mirrors `path.name`.
* `should_exclude_dir` / `should_exclude_file` — the two filter
  predicates, translated check for check from the source.
* `Entry` — a filesystem snapshot node; a directory carries a `denied`
  flag modelling a `PermissionError` raised by `iterdir()`.
* `generate_tree_structure`, `collect_files` — the two traversals.
-/

namespace Code2MD

/-- Python `str.startswith`, over the character lists (kernel-computable
replacement for `String.startsWith`). -/
def startswith (s p : String) : Bool := p.data.isPrefixOf s.data

/-- Python `str.lower`, ASCII case folding applied characterwise. -/
def lower (s : String) : String := String.mk (s.data.map Char.toLower)

/-- Lexicographic codepoint order on character lists: the order Python
uses to compare strings (here only ever applied to lowercased names). -/
def charListLe : List Char → List Char → Bool
  | [], _ => true
  | _ :: _, [] => false
  | a :: as, b :: bs =>
    decide (a.toNat < b.toNat) || (a.toNat == b.toNat && charListLe as bs)

/-- Python `str.split` with a one-character separator, over the
character list: `splitOnChar sep` never returns `[]` and keeps empty
groups, like `"a//b".split("/") == ["a", "", "b"]`. -/
def splitOnChar (sep : Char) : List Char → List (List Char)
  | [] => [[]]
  | c :: rest =>
    match splitOnChar sep rest with
    | [] => [[c]]
    | g :: gs => if c == sep then [] :: g :: gs else (c :: g) :: gs

/-- Model of `relative_path.split("/")`. -/
def split_slash (s : String) : List String :=
  (splitOnChar '/' s.data).map String.mk

/-- Python `"/" in pattern` (membership of a one-character string). -/
def containsSlash (s : String) : Bool := s.data.contains '/'

/-- Match one character against the body of a bracket class (the part
between `[`/`[!` and the closing `]`): a 3-character group `a-b` is a
codepoint range (a reversed range matches nothing, as in CPython's
`fnmatch.translate`), anything else is a literal member. -/
def chunkMatch (c : Char) : List Char → Bool
  | a :: '-' :: b :: rest => (a ≤ b && a ≤ c && c ≤ b) || chunkMatch c rest
  | a :: rest => a == c || chunkMatch c rest
  | [] => false

/-- Scan for the closing `]` of a bracket class, returning the class
body and the remainder of the pattern, or `none` when the class is
unterminated. -/
def scanClass : List Char → Option (List Char × List Char)
  | [] => none
  | ']' :: rest => some ([], rest)
  | c :: rest => (scanClass rest).map (fun pr => (c :: pr.1, pr.2))

/-- Parse what follows a `[` in a glob pattern: an optional `!`
negation, a `]` first character taken literally, then the class body up
to the closing `]`.  Returns `(negated, body, rest-of-pattern)`, or
`none` when the `[` has no closing `]` and is to be taken literally. -/
def classSpec (p : List Char) : Option (Bool × List Char × List Char) :=
  match p with
  | '!' :: t =>
    match t with
    | ']' :: t2 => (scanClass t2).map (fun pr => (true, ']' :: pr.1, pr.2))
    | _ => (scanClass t).map (fun pr => (true, pr.1, pr.2))
  | ']' :: t2 => (scanClass t2).map (fun pr => (false, ']' :: pr.1, pr.2))
  | _ => (scanClass p).map (fun pr => (false, pr.1, pr.2))

/-- Anchored shell-glob matching, structurally recursive on a fuel
counter so that it reduces inside the kernel: every recursive call
shrinks `p.length + s.length`, so the fuel `globMatch` supplies is
always enough and the `0` case is never reached. -/
def globMatchF : Nat → List Char → List Char → Bool
  | 0, _, _ => false
  | fuel + 1, p, s =>
    match p, s with
    | [], s => s.isEmpty
    | '*' :: ps, s =>
      globMatchF fuel ps s ||
        (match s with
         | [] => false
         | _ :: s2 => globMatchF fuel ('*' :: ps) s2)
    | '?' :: ps, s =>
      (match s with
       | [] => false
       | _ :: s2 => globMatchF fuel ps s2)
    | '[' :: ps, s =>
      (match s with
       | [] => false
       | c :: s2 =>
         match classSpec ps with
         | some bcr => (chunkMatch c bcr.2.1 != bcr.1) && globMatchF fuel bcr.2.2 s2
         | none => (c == '[') && globMatchF fuel ps s2)
    | a :: ps, s =>
      (match s with
       | [] => false
       | c :: s2 => (a == c) && globMatchF fuel ps s2)

/-- Anchored shell-glob matching of a pattern (first argument) against
a string (second argument), both as character lists: `*` matches any
run of characters including the empty one, `?` exactly one character,
`[...]` one character from a class. -/
def globMatch (p s : List Char) : Bool :=
  globMatchF (p.length + s.length + 1) p s

/-- Python `fnmatch.fnmatch(name, pattern)` on POSIX. -/
def fnmatch (name pattern : String) : Bool :=
  globMatch pattern.data name.data

/-- The configuration attributes of the `Code2MD` object read by the
filter predicates (`self.root_dir` is modelled separately, by the
root's bare name plus root-relative component lists). -/
structure Config where
  include_files : Option (List String)
  exclude_files : List String
  exclude_dirs : List String
  exclude_patterns : List String
  output_file : String

/-- The configuration produced by `Code2MD.__init__` (before argument
parsing overrides it). -/
def cfgDefault : Config :=
  { include_files := none
    exclude_files := []
    exclude_dirs := []
    exclude_patterns := []
    output_file := "code2md_output.md" }

/-- Model of `str(path.relative_to(root_dir))`: the components joined by `/`,
and `"."` when the path is the root itself. -/
def relStr (rel : List String) : String :=
  if rel.isEmpty then "." else String.intercalate "/" rel

/-- Model of `path.name` for a path given by its root-relative components: the
last component, or the root's own bare name for the root itself. -/
def pathName (rootName : String) (rel : List String) : String :=
  (rel.getLast?).getD rootName

/-- The prefix paths `a`, `a/b`, `a/b/c`, ... scanned by the
pattern loop of `should_exclude_dir`:
`"/".join(relative_path.split("/")[: i + 1])` for each `i`. -/
def pathPrefixes (relative_path : String) : List String :=
  let parts := split_slash relative_path
  (List.range parts.length).map (fun i => String.intercalate "/" (parts.take (i + 1)))

/-- Model of `Code2MD.should_exclude_dir`, for a directory given by its
root-relative components. -/
def should_exclude_dir (cfg : Config) (rootName : String) (rel : List String) : Bool :=
  let name := pathName rootName rel
  if startswith name "." then true
  else
    let relative_path := relStr rel
    if cfg.exclude_dirs.contains relative_path || cfg.exclude_dirs.contains name then true
    else
      cfg.exclude_patterns.any (fun pattern =>
        fnmatch name pattern || fnmatch relative_path pattern ||
          (containsSlash pattern &&
            (pathPrefixes relative_path).any (fun pp => fnmatch pp pattern)))

/-- Model of `Code2MD.should_exclude_file`, for a file given by its
root-relative components. -/
def should_exclude_file (cfg : Config) (rootName : String) (rel : List String) : Bool :=
  let name := pathName rootName rel
  if startswith name "." then true
  else if name = cfg.output_file then true
  else
    let rel_path_str := relStr rel
    if cfg.exclude_files.contains rel_path_str then true
    else if cfg.exclude_patterns.any (fun pattern =>
        fnmatch name pattern || fnmatch rel_path_str pattern ||
          (containsSlash pattern && fnmatch rel_path_str pattern)) then true
    else
      match cfg.include_files with
      | some incl => !(incl.contains rel_path_str)
      | none => false

/-- A filesystem node as seen at traversal time.  A directory carries a
`denied` flag: `true` models `iterdir()` raising `PermissionError` for
that directory. -/
inductive Entry where
  | file (name : String)
  | dir (name : String) (denied : Bool) (children : List Entry)

/-- The `path.name` of an entry. -/
def Entry.name : Entry → String
  | .file n => n
  | .dir n _ _ => n

/-- Python `path.is_dir()`. -/
def Entry.isDir : Entry → Bool
  | .file _ => false
  | .dir _ _ _ => true

/-- Python `path.is_file()`. -/
def Entry.isFile (e : Entry) : Bool := !e.isDir

theorem charListLe_total : ∀ (a b : List Char),
    charListLe a b = true ∨ charListLe b a = true
  | [], _ => Or.inl rfl
  | _ :: _, [] => Or.inr rfl
  | a :: as, b :: bs => by
    simp only [charListLe, Bool.or_eq_true, Bool.and_eq_true, decide_eq_true_eq,
      beq_iff_eq]
    rcases Nat.lt_trichotomy a.toNat b.toNat with h | h | h
    · exact Or.inl (Or.inl h)
    · rcases charListLe_total as bs with ih | ih
      · exact Or.inl (Or.inr ⟨h, ih⟩)
      · exact Or.inr (Or.inr ⟨h.symm, ih⟩)
    · exact Or.inr (Or.inl h)

theorem charListLe_trans : ∀ {a b c : List Char},
    charListLe a b = true → charListLe b c = true → charListLe a c = true
  | [], _, _, _, _ => rfl
  | _ :: _, [], _, h, _ => by simp [charListLe] at h
  | _ :: _, _ :: _, [], _, h2 => by simp [charListLe] at h2
  | a :: as, b :: bs, c :: cs, h1, h2 => by
    simp only [charListLe, Bool.or_eq_true, Bool.and_eq_true, decide_eq_true_eq,
      beq_iff_eq] at h1 h2 ⊢
    rcases h1 with h1 | ⟨e1, t1⟩
    · rcases h2 with h2 | ⟨e2, t2⟩
      · exact Or.inl (Nat.lt_trans h1 h2)
      · exact Or.inl (e2 ▸ h1)
    · rcases h2 with h2 | ⟨e2, t2⟩
      · exact Or.inl (e1 ▸ h2)
      · exact Or.inr ⟨e1.trans e2, charListLe_trans t1 t2⟩

/-- The comparison behind `collect_files`'s
`sorted(path.iterdir(), key=lambda x: x.name.lower())` — the single
combined key, lowercased name only. -/
def nameLe (x y : Entry) : Bool :=
  charListLe (lower x.name).data (lower y.name).data

/-- The comparison behind `generate_tree_structure`'s
`sorted(path.iterdir(), key=lambda x: (x.is_file(), x.name.lower()))` —
primarily "is a file" (`false < true`, so directories first),
secondarily the lowercased name. -/
def treeLe (x y : Entry) : Bool :=
  (!x.isFile && y.isFile) || (x.isFile == y.isFile && nameLe x y)

def treeR (x y : Entry) : Prop := treeLe x y = true

instance : DecidableRel treeR := fun x y => by unfold treeR; infer_instance

def nameR (x y : Entry) : Prop := nameLe x y = true

instance : DecidableRel nameR := fun x y => by unfold nameR; infer_instance

instance : IsTotal Entry treeR where
  total a b := by
    unfold treeR treeLe nameLe
    cases hx : a.isFile <;> cases hy : b.isFile <;> simp [hx, hy] <;>
      exact charListLe_total _ _

instance : IsTrans Entry treeR where
  trans a b c hab hbc := by
    unfold treeR treeLe nameLe at hab hbc ⊢
    cases hx : a.isFile <;> cases hy : b.isFile <;> cases hz : c.isFile <;>
      simp [hx, hy, hz] at hab hbc ⊢ <;>
      exact charListLe_trans hab hbc

instance : IsTotal Entry nameR where
  total a b := by
    unfold nameR nameLe
    exact charListLe_total _ _

instance : IsTrans Entry nameR where
  trans a b c hab hbc := by
    unfold nameR nameLe at hab hbc ⊢
    exact charListLe_trans hab hbc

/-- The sorted entry list of `generate_tree_structure` (a stable
insertion sort, as Python's stable `sorted`). -/
def sortTree (l : List Entry) : List Entry := List.insertionSort treeR l

/-- The sorted entry list of `collect_files`. -/
def sortName (l : List Entry) : List Entry := List.insertionSort nameR l

/-- The entry-filtering loop of `generate_tree_structure`: a directory
child is kept when `should_exclude_dir` rejects it, a file child when
`should_exclude_file` does. -/
def filterChildren (cfg : Config) (rootName : String) (rel : List String)
    (l : List Entry) : List Entry :=
  l.filter (fun entry =>
    if entry.isDir then !(should_exclude_dir cfg rootName (rel ++ [entry.name]))
    else !(should_exclude_file cfg rootName (rel ++ [entry.name])))

/-- Pair each entry with `i == len(entries) - 1`, the `is_last_entry`
flag of the rendering loop. -/
def withLast : List Entry → List (Entry × Bool)
  | [] => []
  | [x] => [(x, true)]
  | x :: y :: ys => (x, false) :: withLast (y :: ys)

/-- The line rendered for one node: `f"{path.name}/\n"` for the root,
`f"{prefix}{connector}{path.name}{'/' if path.is_dir() else ''}\n"`
otherwise. -/
def nodeLine (rootName : String) (rel : List String) (pre : String)
    (is_last : Bool) (isDir : Bool) : String :=
  if rel = [] then pathName rootName rel ++ "/\n"
  else
    pre ++ (if is_last then "└── " else "├── ") ++ pathName rootName rel ++
      (if isDir then "/" else "") ++ "\n"

theorem sizeOf_lt_of_mem_children {c : Entry} {cs : List Entry} (h : c ∈ cs)
    {n : String} {d : Bool} : sizeOf c < sizeOf (Entry.dir n d cs) := by
  have h1 := List.sizeOf_lt_of_mem h
  have h2 : sizeOf (Entry.dir n d cs) = 1 + sizeOf n + sizeOf d + sizeOf cs := by
    simp
  omega

theorem mem_of_mem_withLast : ∀ {l : List Entry} {cb : Entry × Bool},
    cb ∈ withLast l → cb.1 ∈ l
  | [], cb, h => by simp [withLast] at h
  | [x], cb, h => by
    simp [withLast] at h
    simp [h]
  | x :: y :: ys, cb, h => by
    simp only [withLast, List.mem_cons] at h
    rcases h with h | h
    · simp [h]
    · exact List.mem_cons_of_mem x (mem_of_mem_withLast h)

theorem mem_sortTree {x : Entry} {l : List Entry} : x ∈ sortTree l ↔ x ∈ l :=
  List.mem_insertionSort treeR

theorem mem_sortName {x : Entry} {l : List Entry} : x ∈ sortName l ↔ x ∈ l :=
  List.mem_insertionSort nameR

theorem mem_of_mem_filterChildren {cfg : Config} {rootName : String}
    {rel : List String} {l : List Entry} {c : Entry}
    (h : c ∈ filterChildren cfg rootName rel l) : c ∈ l :=
  (List.mem_filter.mp h).1

/-- Model of `Code2MD.generate_tree_structure`, over a snapshot `Entry` whose
root-relative components are `rel` (`[]` for the traversal root). -/
def generate_tree_structure (cfg : Config) (rootName : String) :
    Entry → List String → String → Bool → String
  | .file _, rel, pre, is_last => nodeLine rootName rel pre is_last false
  | .dir _ denied cs, rel, pre, is_last =>
    nodeLine rootName rel pre is_last true ++
      (if should_exclude_dir cfg rootName rel then ""
       else if denied then ""
       else
         String.join
           (((withLast (filterChildren cfg rootName rel (sortTree cs))).attach).map
             (fun cb =>
               generate_tree_structure cfg rootName cb.1.1 (rel ++ [cb.1.1.name])
                 (if rel = [] then "" else pre ++ (if is_last then "    " else "│   "))
                 cb.1.2)))
termination_by e => sizeOf e
decreasing_by
  have hm := mem_of_mem_withLast cb.2
  exact sizeOf_lt_of_mem_children (mem_sortTree.mp (mem_of_mem_filterChildren hm))

/-- Model of `Code2MD.collect_files`, over a snapshot `Entry`; returns the
root-relative component lists of the collected files, in collection
order. -/
def collect_files (cfg : Config) (rootName : String) :
    Entry → List String → List (List String)
  | .file _, rel => if !(should_exclude_file cfg rootName rel) then [rel] else []
  | .dir _ denied cs, rel =>
    if !(should_exclude_dir cfg rootName rel) then
      if denied then []
      else
        ((sortName cs).attach).flatMap
          (fun c => collect_files cfg rootName c.1 (rel ++ [c.1.name]))
    else []
termination_by e => sizeOf e
decreasing_by
  exact sizeOf_lt_of_mem_children (mem_sortName.mp c.2)

/-- Observer of the Tree Renderer for the refinement claim: the
root-relative paths of the files that receive a rendered line in
`generate_tree_structure` — it repeats the renderer's decision
structure exactly (same filter, same guards), dropping only the string
formatting and the `is_last` bookkeeping, which do not influence which
files are rendered. -/
def treeFiles (cfg : Config) (rootName : String) :
    Entry → List String → List (List String)
  | .file _, rel => [rel]
  | .dir _ denied cs, rel =>
    if should_exclude_dir cfg rootName rel then []
    else if denied then []
    else
      ((filterChildren cfg rootName rel (sortTree cs)).attach).flatMap
        (fun c => treeFiles cfg rootName c.1 (rel ++ [c.1.name]))
termination_by e => sizeOf e
decreasing_by
  exact sizeOf_lt_of_mem_children (mem_sortTree.mp (mem_of_mem_filterChildren c.2))

theorem flatMap_attach_eq {α β : Type} (l : List α) (f : α → List β) :
    l.attach.flatMap (fun x => f x.1) = l.flatMap f := by
  conv_rhs => rw [← List.attach_map_subtype_val l]
  rw [List.flatMap_def, List.flatMap_def, List.map_map]
  rfl

theorem map_attach_eq {α β : Type} (l : List α) (f : α → β) :
    l.attach.map (fun x => f x.1) = l.map f := by
  conv_rhs => rw [← List.attach_map_subtype_val l]
  rw [List.map_map]
  rfl

theorem collect_attach_eq (cfg : Config) (rootName : String) (rel : List String)
    (l : List Entry) :
    (l.attach.flatMap fun c => collect_files cfg rootName c.1 (rel ++ [c.1.name])) =
      l.flatMap fun c => collect_files cfg rootName c (rel ++ [c.name]) :=
  flatMap_attach_eq l (fun c => collect_files cfg rootName c (rel ++ [c.name]))

theorem treeFiles_attach_eq (cfg : Config) (rootName : String) (rel : List String)
    (l : List Entry) :
    (l.attach.flatMap fun c => treeFiles cfg rootName c.1 (rel ++ [c.1.name])) =
      l.flatMap fun c => treeFiles cfg rootName c (rel ++ [c.name]) :=
  flatMap_attach_eq l (fun c => treeFiles cfg rootName c (rel ++ [c.name]))

theorem generate_attach_eq (cfg : Config) (rootName : String) (rel : List String)
    (np : String) (l : List (Entry × Bool)) :
    (l.attach.map fun cb =>
        generate_tree_structure cfg rootName cb.1.1 (rel ++ [cb.1.1.name]) np cb.1.2) =
      l.map fun cb =>
        generate_tree_structure cfg rootName cb.1 (rel ++ [cb.1.name]) np cb.2 :=
  map_attach_eq l
    (fun cb => generate_tree_structure cfg rootName cb.1 (rel ++ [cb.1.name]) np cb.2)

theorem generate_file_eq (cfg : Config) (rootName n : String) (rel : List String)
    (pre : String) (is_last : Bool) :
    generate_tree_structure cfg rootName (.file n) rel pre is_last =
      nodeLine rootName rel pre is_last false := by
  simp only [generate_tree_structure]

theorem generate_dir_eq (cfg : Config) (rootName n : String) (d : Bool)
    (cs : List Entry) (rel : List String) (pre : String) (is_last : Bool) :
    generate_tree_structure cfg rootName (.dir n d cs) rel pre is_last =
      nodeLine rootName rel pre is_last true ++
        (if should_exclude_dir cfg rootName rel then ""
         else if d then ""
         else
           String.join
             ((withLast (filterChildren cfg rootName rel (sortTree cs))).map
               (fun cb =>
                 generate_tree_structure cfg rootName cb.1 (rel ++ [cb.1.name])
                   (if rel = [] then "" else pre ++ (if is_last then "    " else "│   "))
                   cb.2))) := by
  conv_lhs => simp only [generate_tree_structure]
  rw [generate_attach_eq]

theorem collect_file_eq (cfg : Config) (rootName n : String) (rel : List String) :
    collect_files cfg rootName (.file n) rel =
      if !(should_exclude_file cfg rootName rel) then [rel] else [] := by
  simp only [collect_files]

theorem collect_dir_eq (cfg : Config) (rootName n : String) (d : Bool)
    (cs : List Entry) (rel : List String) :
    collect_files cfg rootName (.dir n d cs) rel =
      (if !(should_exclude_dir cfg rootName rel) then
        if d then []
        else (sortName cs).flatMap (fun c => collect_files cfg rootName c (rel ++ [c.name]))
      else []) := by
  conv_lhs => simp only [collect_files]
  rw [collect_attach_eq]

theorem treeFiles_file_eq (cfg : Config) (rootName n : String) (rel : List String) :
    treeFiles cfg rootName (.file n) rel = [rel] := by
  simp only [treeFiles]

theorem treeFiles_dir_eq (cfg : Config) (rootName n : String) (d : Bool)
    (cs : List Entry) (rel : List String) :
    treeFiles cfg rootName (.dir n d cs) rel =
      (if should_exclude_dir cfg rootName rel then []
       else if d then []
       else
         (filterChildren cfg rootName rel (sortTree cs)).flatMap
           (fun c => treeFiles cfg rootName c (rel ++ [c.name]))) := by
  conv_lhs => simp only [treeFiles]
  rw [treeFiles_attach_eq]

/-- Model of `path.relative_to(root)` over absolute component lists: the suffix
of `p` after `root`, or `none` — modelling the raised `ValueError` —
when `root` is not a path prefix of `p`. -/
def relative_to (root p : List String) : Option (List String) :=
  if root.isPrefixOf p then some (p.drop root.length) else none

/-- The `path.name` of an absolute component list (`""` for the filesystem
root, as in `pathlib`). -/
def pathNameAbs (p : List String) : String := (p.getLast?).getD ""

/-- Version of `should_exclude_dir` on an absolute path: the hidden-name check
reads only `path.name` and precedes the `relative_to` computation, as
in the source; a `none` result models the `ValueError` escaping when
the path is not under the configured root. -/
def should_exclude_dir_abs (cfg : Config) (root p : List String) : Option Bool :=
  if startswith (pathNameAbs p) "." then some true
  else (relative_to root p).map (fun rel => should_exclude_dir cfg (pathNameAbs p) rel)

/-- Version of `should_exclude_file` on an absolute path: the hidden-name and
output-name checks precede the `relative_to` computation. -/
def should_exclude_file_abs (cfg : Config) (root p : List String) : Option Bool :=
  if startswith (pathNameAbs p) "." then some true
  else if pathNameAbs p = cfg.output_file then some true
  else (relative_to root p).map (fun rel => should_exclude_file cfg (pathNameAbs p) rel)

theorem isPrefixOf_append_self : ∀ (l t : List String), l.isPrefixOf (l ++ t) = true
  | [], _ => by simp [List.isPrefixOf]
  | a :: as, t => by simp [List.isPrefixOf, isPrefixOf_append_self as t]

theorem relative_to_append (root rel : List String) :
    relative_to root (root ++ rel) = some rel := by
  simp [relative_to, isPrefixOf_append_self, List.drop_left]

theorem pathName_append_root (root rel : List String) :
    pathName (pathNameAbs root) rel = pathNameAbs (root ++ rel) := by
  unfold pathName pathNameAbs
  rw [List.getLast?_append]
  cases h : rel.getLast? <;> simp [h, Option.or]

theorem pathName_self_abs (root rel : List String) :
    pathName (pathNameAbs (root ++ rel)) rel = pathNameAbs (root ++ rel) := by
  unfold pathName pathNameAbs
  rw [List.getLast?_append]
  cases h : rel.getLast? <;> simp [h, Option.or]

theorem should_exclude_dir_congr (cfg : Config) {rn1 rn2 : String}
    (rel : List String) (h : pathName rn1 rel = pathName rn2 rel) :
    should_exclude_dir cfg rn1 rel = should_exclude_dir cfg rn2 rel := by
  simp only [should_exclude_dir]
  rw [h]

theorem should_exclude_file_congr (cfg : Config) {rn1 rn2 : String}
    (rel : List String) (h : pathName rn1 rel = pathName rn2 rel) :
    should_exclude_file cfg rn1 rel = should_exclude_file cfg rn2 rel := by
  simp only [should_exclude_file]
  rw [h]

theorem should_exclude_dir_of_hidden (cfg : Config) (rootName : String)
    (rel : List String) (h : startswith (pathName rootName rel) "." = true) :
    should_exclude_dir cfg rootName rel = true := by
  simp only [should_exclude_dir]
  rw [h]
  rfl

theorem should_exclude_file_of_hidden (cfg : Config) (rootName : String)
    (rel : List String) (h : startswith (pathName rootName rel) "." = true) :
    should_exclude_file cfg rootName rel = true := by
  simp only [should_exclude_file]
  rw [h]
  rfl

theorem should_exclude_file_of_output (cfg : Config) (rootName : String)
    (rel : List String) (h : pathName rootName rel = cfg.output_file) :
    should_exclude_file cfg rootName rel = true := by
  simp only [should_exclude_file]
  by_cases hs : startswith (pathName rootName rel) "." = true
  · rw [hs]
    rfl
  · rw [Bool.not_eq_true] at hs
    rw [hs, h]
    simp

/-- A configuration with every rule family populated, used to witness
independence claims. -/
def cfgFull : Config :=
  { include_files := some [".git", "keep.txt"]
    exclude_files := ["ex.txt"]
    exclude_dirs := ["vendor"]
    exclude_patterns := ["*.log"]
    output_file := "out.md" }

/-- A configuration whose include list names the output file. -/
def cfgOut : Config :=
  { include_files := some ["out.md"]
    exclude_files := []
    exclude_dirs := []
    exclude_patterns := []
    output_file := "out.md" }

/-- A configuration with only an include list. -/
def cfgIncl : Config :=
  { include_files := some ["keep.txt"]
    exclude_files := []
    exclude_dirs := []
    exclude_patterns := []
    output_file := "out.md" }

/-- A configuration with a path-separator glob pattern. -/
def cfgPat : Config :=
  { include_files := none
    exclude_files := []
    exclude_dirs := []
    exclude_patterns := ["build/*"]
    output_file := "out.md" }

/-- C9: a directory whose bare name starts with `.` is always excluded —
`should_exclude_dir` returns `true` for it under every configuration,
independent of the other configured rules. -/
theorem hidden_dir_always_excluded (cfg : Config) (rootName : String)
    (rel : List String) (h : startswith (pathName rootName rel) "." = true) :
    should_exclude_dir cfg rootName rel = true :=
  should_exclude_dir_of_hidden cfg rootName rel h

theorem hidden_dir_always_excluded_witness :
    startswith (pathName "r" [".git"]) "." = true ∧
      should_exclude_dir cfgFull "r" [".git"] = true :=
  ⟨by decide, hidden_dir_always_excluded cfgFull "r" [".git"] (by decide)⟩

/-- C3: a file whose bare name equals the configured output filename is
always excluded, whatever the rest of the configuration says — even
when its relative path is listed in the include list. -/
theorem output_name_always_excluded (cfg : Config) (rootName : String)
    (rel : List String) (h : pathName rootName rel = cfg.output_file) :
    should_exclude_file cfg rootName rel = true :=
  should_exclude_file_of_output cfg rootName rel h

theorem output_name_always_excluded_witness :
    pathName "r" ["out.md"] = cfgOut.output_file ∧
      cfgOut.include_files = some ["out.md"] ∧
      should_exclude_file cfgOut "r" ["out.md"] = true :=
  ⟨by decide, by decide, output_name_always_excluded cfgOut "r" ["out.md"] (by decide)⟩

/-- C10: `should_exclude_dir` never reads the include list — two
configurations differing only in `include_files` classify every
directory identically. -/
theorem dir_visibility_ignores_include_list (cfg : Config)
    (inc1 inc2 : Option (List String)) (rootName : String) (rel : List String) :
    should_exclude_dir { cfg with include_files := inc1 } rootName rel =
      should_exclude_dir { cfg with include_files := inc2 } rootName rel := rfl

/-- C7: on every path under the root (`root ++ rel`) both filter
predicates terminate with a boolean: the absolute-path versions return
`some` — the `relative_to` computation never fails there — and agree
with the relative-path versions used by the traversals. -/
theorem filter_policy_never_raises (cfg : Config) (root rel : List String) :
    should_exclude_dir_abs cfg root (root ++ rel) =
        some (should_exclude_dir cfg (pathNameAbs root) rel) ∧
      should_exclude_file_abs cfg root (root ++ rel) =
        some (should_exclude_file cfg (pathNameAbs root) rel) := by
  have hname : pathName (pathNameAbs (root ++ rel)) rel =
      pathName (pathNameAbs root) rel := by
    rw [pathName_self_abs, pathName_append_root]
  constructor
  · unfold should_exclude_dir_abs
    rw [relative_to_append]
    by_cases h : startswith (pathNameAbs (root ++ rel)) "." = true
    · rw [if_pos h]
      have h2 : startswith (pathName (pathNameAbs root) rel) "." = true := by
        rw [pathName_append_root]
        exact h
      rw [should_exclude_dir_of_hidden cfg _ rel h2]
    · rw [if_neg h]
      exact congrArg some (should_exclude_dir_congr cfg rel hname)
  · unfold should_exclude_file_abs
    rw [relative_to_append]
    by_cases h : startswith (pathNameAbs (root ++ rel)) "." = true
    · rw [if_pos h]
      have h2 : startswith (pathName (pathNameAbs root) rel) "." = true := by
        rw [pathName_append_root]
        exact h
      rw [should_exclude_file_of_hidden cfg _ rel h2]
    · rw [if_neg h]
      by_cases ho : pathNameAbs (root ++ rel) = cfg.output_file
      · rw [if_pos ho]
        have h2 : pathName (pathNameAbs root) rel = cfg.output_file := by
          rw [pathName_append_root]
          exact ho
        rw [should_exclude_file_of_output cfg _ rel h2]
      · rw [if_neg ho]
        exact congrArg some (should_exclude_file_congr cfg rel hname)

/-- C2: when an include list is configured, a file that none of the
exclusion rules (hidden name, output name, exclude list, patterns)
rejects is visible exactly when its relative path is in the include
list; and a file an exclusion rule rejects is excluded no matter what
the include list contains — the include-list check only acts after the
exclusion checks. -/
theorem include_list_dominance :
    (∀ (cfg : Config) (rootName : String) (rel : List String) (incl : List String),
        cfg.include_files = some incl →
        startswith (pathName rootName rel) "." = false →
        pathName rootName rel ≠ cfg.output_file →
        cfg.exclude_files.contains (relStr rel) = false →
        cfg.exclude_patterns.any (fun pattern =>
            fnmatch (pathName rootName rel) pattern || fnmatch (relStr rel) pattern ||
              (containsSlash pattern && fnmatch (relStr rel) pattern)) = false →
        should_exclude_file cfg rootName rel = !(incl.contains (relStr rel))) ∧
    (∀ (cfg : Config) (rootName : String) (rel : List String),
        cfg.exclude_patterns.any (fun pattern =>
            fnmatch (pathName rootName rel) pattern || fnmatch (relStr rel) pattern ||
              (containsSlash pattern && fnmatch (relStr rel) pattern)) = true →
        should_exclude_file cfg rootName rel = true) := by
  constructor
  · intro cfg rootName rel incl hinc h1 h2 h3 h4
    simp only [should_exclude_file, h1, h3, h4, hinc, Bool.false_eq_true, if_false]
    rw [if_neg h2]
  · intro cfg rootName rel h
    by_cases hs : startswith (pathName rootName rel) "." = true
    · exact should_exclude_file_of_hidden cfg rootName rel hs
    · by_cases ho : pathName rootName rel = cfg.output_file
      · exact should_exclude_file_of_output cfg rootName rel ho
      · rw [Bool.not_eq_true] at hs
        simp only [should_exclude_file, hs, Bool.false_eq_true, if_false]
        rw [if_neg ho]
        by_cases hx : cfg.exclude_files.contains (relStr rel) = true
        · rw [if_pos hx]
        · rw [if_neg hx, if_pos h]

theorem include_list_dominance_witness :
    cfgIncl.include_files = some ["keep.txt"] ∧
      should_exclude_file cfgIncl "r" ["other.txt"] =
        !(["keep.txt"].contains (relStr ["other.txt"])) ∧
      should_exclude_file cfgIncl "r" ["keep.txt"] =
        !(["keep.txt"].contains (relStr ["keep.txt"])) :=
  ⟨rfl,
   include_list_dominance.1 cfgIncl "r" ["other.txt"] ["keep.txt"] rfl (by decide)
     (by decide) (by decide) (by decide),
   include_list_dominance.1 cfgIncl "r" ["keep.txt"] ["keep.txt"] rfl (by decide)
     (by decide) (by decide) (by decide)⟩

/-- C4: for a pattern of the exclusion list containing `/`, a directory
is excluded as soon as the pattern glob-matches any path prefix of its
relative path; matching the bare name or the whole relative path
directly (any pattern) also excludes it. -/
theorem dir_pattern_prefix_scan (cfg : Config) (rootName : String)
    (rel : List String) (pattern : String)
    (hp : pattern ∈ cfg.exclude_patterns)
    (h : (containsSlash pattern = true ∧
          ∃ pp ∈ pathPrefixes (relStr rel), fnmatch pp pattern = true) ∨
        fnmatch (pathName rootName rel) pattern = true ∨
        fnmatch (relStr rel) pattern = true) :
    should_exclude_dir cfg rootName rel = true := by
  by_cases hs : startswith (pathName rootName rel) "." = true
  · exact should_exclude_dir_of_hidden cfg rootName rel hs
  · rw [Bool.not_eq_true] at hs
    simp only [should_exclude_dir, hs, Bool.false_eq_true, if_false]
    by_cases hd : (cfg.exclude_dirs.contains (relStr rel) ||
        cfg.exclude_dirs.contains (pathName rootName rel)) = true
    · rw [if_pos hd]
    · rw [if_neg hd]
      rw [List.any_eq_true]
      refine ⟨pattern, hp, ?_⟩
      simp only [Bool.or_eq_true, Bool.and_eq_true]
      rcases h with ⟨hc, pp, hpp, hm⟩ | h | h
      · exact Or.inr ⟨hc, List.any_eq_true.mpr ⟨pp, hpp, hm⟩⟩
      · exact Or.inl (Or.inl h)
      · exact Or.inl (Or.inr h)

theorem dir_pattern_prefix_scan_witness :
    "build/*" ∈ cfgPat.exclude_patterns ∧
      (containsSlash "build/*" = true ∧
        ∃ pp ∈ pathPrefixes (relStr ["build", "sub", "deep"]),
          fnmatch pp "build/*" = true) ∧
      should_exclude_dir cfgPat "r" ["build", "sub", "deep"] = true :=
  ⟨by decide, by decide,
   dir_pattern_prefix_scan cfgPat "r" ["build", "sub", "deep"] "build/*" (by decide)
     (Or.inl (by decide))⟩

/-- C8: a directory whose listing raises `PermissionError` (the
`denied` flag) is rendered as its own line with zero children and
contributes no files; the failure stays local — in the concrete tree,
the sibling `a.txt` of the denied directory is still collected. -/
theorem permission_denied_recovered (cfg : Config) (rootName n : String)
    (cs : List Entry) (rel : List String) (pre : String) (is_last : Bool) :
    generate_tree_structure cfg rootName (.dir n true cs) rel pre is_last =
        nodeLine rootName rel pre is_last true ∧
      collect_files cfg rootName (.dir n true cs) rel = [] ∧
      collect_files cfgDefault "r"
          (.dir "r" false [.dir "locked" true [.file "secret.txt"], .file "a.txt"]) [] =
        [["a.txt"]] := by
  refine ⟨?_, ?_, ?_⟩
  · rw [generate_dir_eq]
    by_cases h : should_exclude_dir cfg rootName rel = true
    · rw [if_pos h, String.append_empty]
    · rw [if_neg h, if_pos rfl, String.append_empty]
  · rw [collect_dir_eq]
    by_cases h : should_exclude_dir cfg rootName rel = true <;> simp [h]
  · simp +decide [collect_dir_eq, collect_file_eq, sortName, List.insertionSort,
      List.orderedInsert, nameR, Entry.name]

/-- C1 is refuted: for a root whose bare name starts with `.`, both
traversals apply `should_exclude_dir` to the root itself — the tree is
the bare root line with no children and no file is collected, although
the root's child `a.txt` is not itself excluded by any rule. -/
theorem root_filtered_counterexample :
    generate_tree_structure cfgDefault ".r" (.dir ".r" false [.file "a.txt"]) [] "" true =
        ".r/\n" ∧
      collect_files cfgDefault ".r" (.dir ".r" false [.file "a.txt"]) [] = [] ∧
      should_exclude_file cfgDefault ".r" ["a.txt"] = false := by
  refine ⟨?_, ?_, by decide⟩
  · rw [generate_dir_eq,
      if_pos (show should_exclude_dir cfgDefault ".r" [] = true by decide),
      String.append_empty]
    rfl
  · rw [collect_dir_eq]
    simp [show should_exclude_dir cfgDefault ".r" [] = true from by decide]

/-- C1 amended: the root is always rendered as `<name>/` with no
connector prefix, but the Filter Policy is applied to the root itself
in both traversals: whenever `should_exclude_dir` accepts the root
(with relative path `"."`), the rendering consists of the root line
alone and `collect_files` returns no files. -/
theorem root_rendered_bare_but_filtered :
    (∀ (cfg : Config) (rootName n : String) (d : Bool) (cs : List Entry),
        ∃ rest,
          generate_tree_structure cfg rootName (.dir n d cs) [] "" true =
            pathName rootName [] ++ "/\n" ++ rest) ∧
    (∀ (cfg : Config) (rootName n : String) (d : Bool) (cs : List Entry),
        should_exclude_dir cfg rootName [] = true →
        generate_tree_structure cfg rootName (.dir n d cs) [] "" true =
            pathName rootName [] ++ "/\n" ∧
          collect_files cfg rootName (.dir n d cs) [] = []) := by
  constructor
  · intro cfg rootName n d cs
    exact ⟨_, generate_dir_eq cfg rootName n d cs [] "" true⟩
  · intro cfg rootName n d cs h
    constructor
    · rw [generate_dir_eq, if_pos h, String.append_empty]
      rfl
    · rw [collect_dir_eq]
      simp [h]

theorem root_rendered_bare_but_filtered_witness :
    should_exclude_dir cfgDefault ".r" [] = true ∧
      (generate_tree_structure cfgDefault ".r" (.dir ".r" false [.file "b.txt"]) [] "" true =
          pathName ".r" [] ++ "/\n" ∧
        collect_files cfgDefault ".r" (.dir ".r" false [.file "b.txt"]) [] = []) :=
  ⟨by decide,
   root_rendered_bare_but_filtered.2 cfgDefault ".r" ".r" false [.file "b.txt"] (by decide)⟩

/-- The sample tree exercising both sibling orders: a directory `b`
(containing `c.txt`), a file `a.txt` and a hidden file `.z` under the
root `r`. -/
def sampleTree : Entry :=
  .dir "r" false [.dir "b" false [.file "c.txt"], .file "a.txt", .file ".z"]

/-- C5: the renderer sorts children directories-first and then by
case-insensitive name, the collector by case-insensitive name alone;
both sorts are permutations, the renderer draws the `└──` connector on
the last of the *filtered* children (`a.txt`, because `.z` is filtered
out before the count), and the two resulting file orders genuinely
diverge on `sampleTree`. -/
theorem orderings_differ_between_traversals :
    (∀ l : List Entry, (sortTree l).Perm l ∧ List.Sorted treeR (sortTree l)) ∧
    (∀ l : List Entry, (sortName l).Perm l ∧ List.Sorted nameR (sortName l)) ∧
    generate_tree_structure cfgDefault "r" sampleTree [] "" true =
        "r/\n├── b/\n│   └── c.txt\n└── a.txt\n" ∧
      collect_files cfgDefault "r" sampleTree [] = [["a.txt"], ["b", "c.txt"]] ∧
      treeFiles cfgDefault "r" sampleTree [] = [["b", "c.txt"], ["a.txt"]] ∧
      treeFiles cfgDefault "r" sampleTree [] ≠ collect_files cfgDefault "r" sampleTree [] := by
  have e1 : treeFiles cfgDefault "r" sampleTree [] = [["b", "c.txt"], ["a.txt"]] := by
    simp +decide [sampleTree, treeFiles_dir_eq, treeFiles_file_eq, sortTree,
      List.insertionSort, List.orderedInsert, treeR, filterChildren, Entry.name,
      Entry.isDir]
  have e2 : collect_files cfgDefault "r" sampleTree [] = [["a.txt"], ["b", "c.txt"]] := by
    simp +decide [sampleTree, collect_dir_eq, collect_file_eq, sortName,
      List.insertionSort, List.orderedInsert, nameR, Entry.name]
  refine ⟨fun l => ⟨List.perm_insertionSort treeR l, List.sorted_insertionSort treeR l⟩,
    fun l => ⟨List.perm_insertionSort nameR l, List.sorted_insertionSort nameR l⟩,
    ?_, e2, e1, ?_⟩
  · simp +decide [sampleTree, generate_dir_eq, generate_file_eq, sortTree,
      List.insertionSort, List.orderedInsert, treeR, filterChildren, withLast,
      nodeLine, pathName, Entry.name, Entry.isDir, String.join]
  · rw [e1, e2]
    decide

theorem entry_sizeOf_pos (e : Entry) : 0 < sizeOf e := by
  cases e with
  | file n => simp only [Entry.file.sizeOf_spec]; omega
  | dir n d cs => simp only [Entry.dir.sizeOf_spec]; omega

theorem sizeOf_child_le {c : Entry} {cs : List Entry} {n : String} {d : Bool} {k : Nat}
    (hc : c ∈ cs) (hk : sizeOf (Entry.dir n d cs) ≤ k + 1) : sizeOf c ≤ k := by
  have h1 := List.sizeOf_lt_of_mem hc
  have h2 : sizeOf (Entry.dir n d cs) = 1 + sizeOf n + sizeOf d + sizeOf cs := by simp
  omega

theorem tree_collect_mem_aux (cfg : Config) (rootName : String) :
    ∀ (k : Nat) (e : Entry), sizeOf e ≤ k → e.isDir = true →
      ∀ (rel p : List String),
        (p ∈ treeFiles cfg rootName e rel ↔ p ∈ collect_files cfg rootName e rel) := by
  intro k
  induction k with
  | zero =>
    intro e hk
    have hpos := entry_sizeOf_pos e
    exact False.elim (by omega)
  | succ k ih =>
    intro e hk hdir rel p
    match e, hdir with
    | .dir nm d cs, _ =>
      rw [treeFiles_dir_eq, collect_dir_eq]
      by_cases hex : should_exclude_dir cfg rootName rel = true
      · simp [hex]
      · rw [Bool.not_eq_true] at hex
        simp only [hex, Bool.not_false, Bool.false_eq_true, if_false, if_true]
        cases d with
        | true => simp
        | false =>
          simp only [Bool.false_eq_true, if_false]
          rw [List.mem_flatMap, List.mem_flatMap]
          constructor
          · rintro ⟨c, hc, hp⟩
            have hcs : c ∈ cs := mem_sortTree.mp (mem_of_mem_filterChildren hc)
            have hkeep := (List.mem_filter.mp hc).2
            refine ⟨c, mem_sortName.mpr hcs, ?_⟩
            match c, hp, hkeep with
            | .file fn, hp, hkeep =>
              simp only [Entry.isDir, Bool.false_eq_true, if_false,
                Bool.not_eq_true'] at hkeep
              rw [treeFiles_file_eq] at hp
              rw [collect_file_eq, hkeep]
              simpa using hp
            | .dir n2 d2 cs2, hp, hkeep =>
              exact (ih (.dir n2 d2 cs2) (sizeOf_child_le hcs hk) rfl
                (rel ++ [(Entry.dir n2 d2 cs2).name]) p).mp hp
          · rintro ⟨c, hc, hp⟩
            have hcs : c ∈ cs := mem_sortName.mp hc
            match c, hp with
            | .file fn, hp =>
              rw [collect_file_eq] at hp
              by_cases hf : should_exclude_file cfg rootName
                  (rel ++ [(Entry.file fn).name]) = true
              · rw [hf] at hp
                simp at hp
              · rw [Bool.not_eq_true] at hf
                refine ⟨.file fn, List.mem_filter.mpr ⟨mem_sortTree.mpr hcs, ?_⟩, ?_⟩
                · simp [Entry.isDir, hf]
                · rw [treeFiles_file_eq]
                  rw [hf] at hp
                  simpa using hp
            | .dir n2 d2 cs2, hp =>
              have hd2 : should_exclude_dir cfg rootName
                  (rel ++ [(Entry.dir n2 d2 cs2).name]) = false := by
                by_contra hcon
                rw [Bool.not_eq_false] at hcon
                rw [collect_dir_eq] at hp
                simp [hcon] at hp
              refine ⟨.dir n2 d2 cs2,
                List.mem_filter.mpr ⟨mem_sortTree.mpr hcs, by simp [Entry.isDir, hd2]⟩, ?_⟩
              exact (ih (.dir n2 d2 cs2) (sizeOf_child_le hcs hk) rfl
                (rel ++ [(Entry.dir n2 d2 cs2).name]) p).mpr hp

/-- C6: on any directory (in particular the traversal root), the set of
file paths the Tree Renderer emits a file line for equals the set of
file paths the File Collector returns — the two traversals make the
same visibility decisions and differ only in ordering. -/
theorem tree_and_collect_agree_on_files (cfg : Config) (rootName nm : String)
    (d : Bool) (cs : List Entry) (rel p : List String) :
    p ∈ treeFiles cfg rootName (.dir nm d cs) rel ↔
      p ∈ collect_files cfg rootName (.dir nm d cs) rel :=
  tree_collect_mem_aux cfg rootName (sizeOf (Entry.dir nm d cs)) _ (Nat.le_refl _) rfl rel p

end Code2MD
